import Mathlib

/-!
Shallow embedding of the Pop-match tile-matching engine.

The repository ships several variants of the same game:
* `src/unnamed/part_001` — the featured variant with powerups, wildcard
  (`rainbow`/`special`) tiles, bonus tiers and a combo meter;
* `src/src/App.tsx` and `src/unnamed/part_000` — simpler variants with no
  powerups and a single-color chain rule;
* `src/unnamed/part_002` — a per-color minimum-match variant.

The definitions below translate the game-logic functions of those files
(`handleCellEnter`, `handlePointerUp`, `applyGravity`, …) into pure Lean
functions.  Randomness (tile generation during refill) is threaded through
as an explicit oracle argument, and the React state update semantics of a
commit is modelled as one pure state transformation (functional updaters
queued by a state updater are applied after the absolute updates already
queued in the same handler, so the combo-breakout `+500` score and `+2`
moves land on top of the commit's own deltas).
-/

namespace PopMatch

/-- Tile colors of `part_001`: the five base colors plus the two wildcard
markers created by the resolution engine. -/
inductive BallColor
  | red | blue | yellow | green | purple | rainbow | special
deriving DecidableEq, Fintype

/-- Powerup kinds of `part_001` (`'moves' | 'multiplier' | 'bomb'`). -/
inductive PowerupType
  | moves | multiplier | bomb
deriving DecidableEq, Fintype

/-- A tile: color plus optional powerup.  The `id` string of the source is
used only for animation keying and carries no game logic, so it is dropped. -/
structure Ball where
  color : BallColor
  powerup : Option PowerupType
deriving DecidableEq, Fintype

/-- A grid coordinate (row, column). -/
structure Pos where
  r : Nat
  c : Nat
deriving DecidableEq

/-- The grid is a rows-of-cells matrix; `none` is an empty cell. -/
abbrev Grid := List (List (Option Ball))

def ROWS : Nat := 8
def COLS : Nat := 5
def MIN_MATCH : Nat := 3

/-- Read `grid[r][c]`; out-of-range reads behave as empty cells. -/
def getCell (g : Grid) (r c : Nat) : Option Ball :=
  (g.getD r []).getD c none

/-- Write `grid[r][c] = b`. -/
def setCell (g : Grid) (r c : Nat) (b : Option Ball) : Grid :=
  g.set r ((g.getD r []).set c b)

/-- Game phases (`'home' | 'playing' | 'won' | 'lost' | 'levelup'`). -/
inductive Phase
  | home | playing | won | lost | levelup
deriving DecidableEq

/-- Absolute difference of two naturals, modelling `Math.abs(a - b)` on
grid indices. -/
def natDist (a b : Nat) : Nat := if a ≤ b then b - a else a - b

/-- King-move adjacency test of `handleCellEnter`:
`Math.abs(last.r - r) <= 1 && Math.abs(last.c - c) <= 1 && !(last.r === r && last.c === c)`. -/
def isAdjacentB (last : Pos) (r c : Nat) : Bool :=
  natDist last.r r ≤ 1 && natDist last.c c ≤ 1 && !(last.r == r && last.c == c)

/-- The chain color: the color of the first non-wildcard, non-empty cell
along the selection (`targetColor` in `handleCellEnter` of `part_001`). -/
def chainColorOf (g : Grid) (sel : List Pos) : Option BallColor :=
  sel.findSome? fun s =>
    match getCell g s.r s.c with
    | some b =>
        if b.color ≠ BallColor.rainbow ∧ b.color ≠ BallColor.special then some b.color
        else none
    | none => none

/-- The selection-extension logic of `part_001`'s `handleCellEnter` (the
body of the `setSelection` updater): backtracking, duplicate no-op,
adjacency check, and wildcard-aware color compatibility. -/
def handleCellEnter (g : Grid) (r c : Nat) (prev : List Pos) : List Pos :=
  if prev.length = 0 then prev
  else if prev.length > 1 ∧ prev.getD (prev.length - 2) ⟨0, 0⟩ = ⟨r, c⟩ then
    prev.dropLast
  else if prev.any fun s => s.r == r && s.c == c then
    prev
  else if isAdjacentB (prev.getD (prev.length - 1) ⟨0, 0⟩) r c then
    match getCell g r c with
    | none => prev
    | some ball =>
        if ball.color = BallColor.rainbow ∨ ball.color = BallColor.special then
          prev ++ [⟨r, c⟩]
        else
          match chainColorOf g prev with
          | none => prev ++ [⟨r, c⟩]
          | some tc => if ball.color = tc then prev ++ [⟨r, c⟩] else prev
  else prev

/-- Chains reachable through `handlePointerDown` (which requires an occupied
start cell) followed by any sequence of `handleCellEnter` events, with the
grid fixed for the duration of the drag. -/
inductive Reachable (g : Grid) : List Pos → Prop
  | start (r c : Nat) (h : (getCell g r c).isSome) : Reachable g [⟨r, c⟩]
  | extend (sel : List Pos) (r c : Nat) :
      Reachable g sel → Reachable g (handleCellEnter g r c sel)

/-- The selection invariant claimed by the spec: consecutive elements are
king-adjacent, the chain is duplicate-free, every element is occupied, and
all non-wildcard elements share one color. -/
def chainInv (g : Grid) (sel : List Pos) : Prop :=
  sel.Chain' (fun p q => isAdjacentB p q.r q.c = true) ∧
  sel.Nodup ∧
  (∀ p ∈ sel, (getCell g p.r p.c).isSome) ∧
  (∀ p ∈ sel, ∀ q ∈ sel, ∀ bp bq,
      getCell g p.r p.c = some bp → getCell g q.r q.c = some bq →
      bp.color ≠ BallColor.rainbow → bp.color ≠ BallColor.special →
      bq.color ≠ BallColor.rainbow → bq.color ≠ BallColor.special →
      bp.color = bq.color)

/-! Gravity and refill (`applyGravity`, identical in all variants).

The source walks each column bottom-up counting empty cells and shifting
occupied cells down by the current count, then fills the vacated top cells
with freshly generated tiles.  `gravityStep` is one iteration of the inner
`for (let r = ROWS - 1; r >= 0; r--)` loop over the state
(column contents, `emptySpaces`); `refillPass` is the second loop.  The
random color of each fresh tile is supplied by the `freshc` oracle; refill
tiles carry no powerup, exactly as in the source. -/

/-- One iteration of the bottom-up compaction loop at row `r`. -/
def gravityStep (st : List (Option Ball) × Nat) (r : Nat) :
    List (Option Ball) × Nat :=
  match st.1.getD r none with
  | none => (st.1, st.2 + 1)
  | some b =>
      if 0 < st.2 then ((st.1.set (r + st.2) (some b)).set r none, st.2)
      else st

/-- The full bottom-up compaction pass over one column, returning the
compacted column and the final `emptySpaces` count. -/
def gravityPass (col : List (Option Ball)) : List (Option Ball) × Nat :=
  (List.range col.length).reverse.foldl gravityStep (col, 0)

/-- The refill loop `for (let r = 0; r < emptySpaces; r++)`: fill the top
`emptySpaces` cells with fresh tiles (color from the oracle, no powerup). -/
def refillPass (freshc : Nat → BallColor) (st : List (Option Ball) × Nat) :
    List (Option Ball) :=
  (List.range st.2).foldl (fun a r => a.set r (some ⟨freshc r, none⟩)) st.1

/-- Gravity and refill on a single column. -/
def applyGravityCol (col : List (Option Ball)) (freshc : Nat → BallColor) :
    List (Option Ball) :=
  refillPass freshc (gravityPass col)

/-- Column `c` of a grid, read top to bottom. -/
def columnOf (g : Grid) (c : Nat) : List (Option Ball) :=
  (List.range ROWS).map fun r => getCell g r c

/-- Function `applyGravity`: run the column pass on each of the `COLS` columns and
reassemble the row-major grid. -/
def applyGravity (g : Grid) (fresh : Nat → Nat → BallColor) : Grid :=
  let cols := (List.range COLS).map fun c => applyGravityCol (columnOf g c) (fresh c)
  (List.range ROWS).map fun r => (List.range COLS).map fun c => (cols.getD c []).getD r none

/-- Number of empty cells in a column. -/
def countNone (col : List (Option Ball)) : Nat :=
  col.countP fun x => x.isNone

/-! Helper lemmas about `List.set` / `List.getD` at an append boundary. -/

theorem getD_append_cons {α : Type} (l₁ : List α) (x : α) (l₂ : List α) (d : α) :
    (l₁ ++ x :: l₂).getD l₁.length d = x := by
  induction l₁ with
  | nil => rfl
  | cons a t ih => simpa using ih

theorem set_append_cons {α : Type} (l₁ : List α) (x : α) (l₂ : List α) (y : α) :
    (l₁ ++ x :: l₂).set l₁.length y = l₁ ++ y :: l₂ := by
  induction l₁ with
  | nil => rfl
  | cons a t ih => simp [ih]

theorem countNone_append_one (q : List (Option Ball)) (x : Option Ball) :
    countNone (q ++ [x]) = countNone q + (if x.isNone then 1 else 0) := by
  by_cases hx : x.isNone <;> simp [countNone, List.countP_append, hx]

/-- Invariant of the compaction loop: if the rows below the ones still to be
processed already have the shape `replicate k none ++ occupied`, running the
remaining iterations extends that shape over the whole column. -/
theorem gravityPass_invariant (p : List (Option Ball)) :
    ∀ (k : Nat) (os : List Ball),
      (List.range p.length).reverse.foldl gravityStep
          (p ++ (List.replicate k none ++ os.map some), k)
        = (List.replicate (k + countNone p) none ++ (p.filterMap id ++ os).map some,
           k + countNone p) := by
  induction p using List.reverseRecOn with
  | nil => intro k os; simp [countNone]
  | append_singleton q x ih =>
      intro k os
      rw [List.length_append, List.length_singleton, List.range_succ,
        List.reverse_append]
      simp only [List.reverse_singleton, List.singleton_append, List.foldl_cons]
      have hget : ((q ++ [x]) ++ (List.replicate k none ++ os.map some)).getD q.length none = x := by
        have : (q ++ [x]) ++ (List.replicate k none ++ os.map some)
            = q ++ x :: (List.replicate k none ++ os.map some) := by simp
        rw [this, getD_append_cons]
      match x with
      | none =>
          have hstep : gravityStep ((q ++ [none]) ++ (List.replicate k none ++ os.map some), k) q.length
              = (q ++ (List.replicate (k + 1) none ++ os.map some), k + 1) := by
            simp only [gravityStep, hget]
            have : List.replicate (k + 1) (none : Option Ball) = none :: List.replicate k none := rfl
            simp [this]
          rw [hstep, ih (k + 1) os]
          have hc : countNone (q ++ [none]) = countNone q + 1 := by
            simp [countNone_append_one]
          rw [hc]
          have h1 : k + 1 + countNone q = k + (countNone q + 1) := by omega
          rw [h1]
          simp [List.filterMap_append]
      | some b =>
          by_cases hk : 0 < k
          · obtain ⟨k', rfl⟩ : ∃ k', k = k' + 1 := ⟨k - 1, by omega⟩
            have hsplit : (q ++ [some b]) ++ (List.replicate (k' + 1) none ++ os.map some)
                = (q ++ some b :: List.replicate k' none) ++ none :: os.map some := by
              have : List.replicate (k' + 1) (none : Option Ball)
                  = List.replicate k' none ++ [none] := by
                rw [← List.replicate_succ']
              simp [this]
            have hlen : q.length + (k' + 1) = (q ++ some b :: List.replicate k' none).length := by
              simp
            have hstep : gravityStep ((q ++ [some b]) ++ (List.replicate (k' + 1) none ++ os.map some), k' + 1) q.length
                = (q ++ (List.replicate (k' + 1) none ++ (b :: os).map some), k' + 1) := by
              simp only [gravityStep, hget, if_pos (Nat.succ_pos k')]
              rw [hsplit, hlen, set_append_cons]
              have hsplit2 : (q ++ some b :: List.replicate k' none) ++ some b :: os.map some
                  = q ++ some b :: (List.replicate k' none ++ some b :: os.map some) := by simp
              rw [hsplit2]
              rw [set_append_cons q _ _ none]
              have : List.replicate (k' + 1) (none : Option Ball) = none :: List.replicate k' none := rfl
              simp [this]
            rw [hstep, ih (k' + 1) (b :: os)]
            have hc : countNone (q ++ [some b]) = countNone q := by
              simp [countNone_append_one]
            rw [hc]
            simp [List.filterMap_append]
          · have hk0 : k = 0 := by omega
            subst hk0
            have hstep : gravityStep ((q ++ [some b]) ++ (List.replicate 0 none ++ os.map some), 0) q.length
                = (q ++ (List.replicate 0 none ++ (b :: os).map some), 0) := by
              simp only [gravityStep, hget]
              simp
            rw [hstep, ih 0 (b :: os)]
            have hc : countNone (q ++ [some b]) = countNone q := by
              simp [countNone_append_one]
            rw [hc]
            simp [List.filterMap_append]

/-- The compaction pass compacts the occupied cells to the bottom of the
column, in order, leaving `countNone col` empty cells on top. -/
theorem gravityPass_eq (col : List (Option Ball)) :
    gravityPass col
      = (List.replicate (countNone col) none ++ (col.filterMap id).map some,
         countNone col) := by
  have h := gravityPass_invariant col 0 []
  simpa [gravityPass] using h

/-- The refill loop replaces the `k` empty cells on top with fresh tiles. -/
theorem refillPass_eq (freshc : Nat → BallColor) :
    ∀ (k : Nat) (tail : List (Option Ball)),
      refillPass freshc (List.replicate k none ++ tail, k)
        = (List.range k).map (fun r => some ⟨freshc r, none⟩) ++ tail := by
  intro k
  induction k with
  | zero => intro tail; simp [refillPass]
  | succ k ih =>
      intro tail
      simp only [refillPass, List.range_succ, List.foldl_append, List.foldl_cons,
        List.foldl_nil]
      have hsplit : List.replicate (k + 1) (none : Option Ball) ++ tail
          = List.replicate k none ++ (none :: tail) := by
        rw [List.replicate_succ', List.append_assoc]
        rfl
      rw [hsplit]
      have hih := ih (none :: tail)
      simp only [refillPass] at hih
      rw [hih]
      have hlen : ((List.range k).map fun r => some (⟨freshc r, none⟩ : Ball)).length = k := by
        simp
      have hset := set_append_cons
        ((List.range k).map fun r => some (⟨freshc r, none⟩ : Ball))
        (none : Option Ball) tail (some ⟨freshc k, none⟩)
      rw [hlen] at hset
      rw [hset]
      simp [List.range_succ]

/-- Full characterization of the per-column gravity-and-refill pass. -/
theorem applyGravityCol_eq (col : List (Option Ball)) (freshc : Nat → BallColor) :
    applyGravityCol col freshc
      = (List.range (countNone col)).map (fun r => some ⟨freshc r, none⟩)
          ++ (col.filterMap id).map some := by
  rw [applyGravityCol, gravityPass_eq, refillPass_eq]

/-- In a column, the empty-cell count and the occupied-cell count add up to
the column height. -/
theorem countNone_add_filterMap (col : List (Option Ball)) :
    countNone col + (col.filterMap id).length = col.length := by
  induction col with
  | nil => rfl
  | cons x t ih =>
      match x with
      | none => simp [countNone, List.countP_cons] at ih ⊢; omega
      | some b => simp [countNone, List.countP_cons] at ih ⊢; omega

/-! Match resolution (`handlePointerUp` of `part_001`).

The commit handler of the featured variant: powerup collection, bomb
expansion, bonus tiers, combo meter with breakout, reward-tile placement,
score, moves, multiplier buff, target decrement, and the win/loss check.
Scores, moves and target values are modelled as `Int` (JS numbers used in
integer arithmetic).  Fresh refill colors come from the `fresh` oracle. -/

/-- The game state of `part_001` (the `useState` hooks that carry game
logic; the in-progress selection is passed separately to the handlers). -/
structure GameSt where
  level : Nat
  grid : Grid
  score : Int
  moves : Int
  targets : BallColor → Option Int
  phase : Phase
  multiplierTurns : Nat
  combo : Nat
  comboMeter : Int

/-- The powerup carried by the tile at `p`, if any. -/
def powerupOf (g : Grid) (p : Pos) : Option PowerupType :=
  match getCell g p.r p.c with
  | some b => b.powerup
  | none => none

/-- Powerup scan: `addedMoves += 3` per `moves` tile in the chain. -/
def addedMovesBase (g : Grid) (sel : List Pos) : Int :=
  sel.foldl (fun acc p => if powerupOf g p = some PowerupType.moves then acc + 3 else acc) 0

/-- Powerup scan: a `multiplier` tile anywhere in the chain. -/
def activatedMultiplier (g : Grid) (sel : List Pos) : Bool :=
  sel.any fun p => powerupOf g p == some PowerupType.multiplier

/-- Powerup scan: a `bomb` tile anywhere in the chain. -/
def activatedBomb (g : Grid) (sel : List Pos) : Bool :=
  sel.any fun p => powerupOf g p == some PowerupType.bomb

/-- All grid coordinates in the row-major order of the bomb-expansion
double loop. -/
def allPositions : List Pos :=
  ((List.range ROWS).map fun r => (List.range COLS).map fun c => Pos.mk r c).flatten

/-- Bomb expansion: starting from the drawn chain, append every grid cell
of the chain color not already in the accumulated removal set; otherwise
the removal set is the chain itself. -/
def finalSelectionOf (g : Grid) (sel : List Pos) : List Pos :=
  match chainColorOf g sel, activatedBomb g sel with
  | some color, true =>
      allPositions.foldl
        (fun fs p =>
          match getCell g p.r p.c with
          | some b =>
              if b.color == color && !(fs.any fun s => s.r == p.r && s.c == p.c) then
                fs ++ [p]
              else fs
          | none => fs)
        sel
  | _, _ => sel

/-- Size of the final removal set of a commit. -/
def removalCountOf (g : Grid) (sel : List Pos) : Nat :=
  (finalSelectionOf g sel).length

/-- Bonus tiers, determined by the final removal-set size exactly as the
`isSuperBonus` / `isBonus` flags: `super` at ≥ 10, `bonus` at ≥ 5. -/
inductive Tier
  | normal | bonus | super
deriving DecidableEq

/-- The tier of a removal set of size `n`. -/
def tierOf (n : Nat) : Tier :=
  if 10 ≤ n then Tier.super else if 5 ≤ n then Tier.bonus else Tier.normal

/-- Combo-meter increment of a commit:
`Math.min(25, 10 + (finalSelection.length - 3) * 5)`. -/
def comboIncrement (n : Nat) : Int :=
  min 25 (10 + ((n : Int) - 3) * 5)

/-- The removal set is cleared from the grid, then the last cell of the
originally committed chain becomes a `rainbow` (super) or `special`
(bonus) tile instead of staying empty. -/
def rewardedGridOf (g : Grid) (sel : List Pos) : Grid :=
  let fs := finalSelectionOf g sel
  let cleared := fs.foldl (fun ng p => setCell ng p.r p.c none) g
  match sel.getLast? with
  | some p =>
      if 10 ≤ fs.length then setCell cleared p.r p.c (some ⟨BallColor.rainbow, none⟩)
      else if 5 ≤ fs.length then setCell cleared p.r p.c (some ⟨BallColor.special, none⟩)
      else cleared
  | none => cleared

/-- Whether the removal set contains a `rainbow` tile (read on the
pre-commit grid, as the source does). -/
def usedRainbow (g : Grid) (sel : List Pos) : Bool :=
  (finalSelectionOf g sel).any fun s =>
    match getCell g s.r s.c with
    | some b => b.color == BallColor.rainbow
    | none => false

/-- Whether the removal set contains a `special` tile. -/
def usedSpecial (g : Grid) (sel : List Pos) : Bool :=
  (finalSelectionOf g sel).any fun s =>
    match getCell g s.r s.c with
    | some b => b.color == BallColor.special
    | none => false

/-- Target decrement of a commit: with a `rainbow` in the removal set every
active target drops by the removal count (floored at 0); otherwise only the
chain color's target drops, doubled if a `special` was in the removal set. -/
def targetsAfter (g : Grid) (sel : List Pos) (t : BallColor → Option Int) :
    BallColor → Option Int :=
  let len : Int := removalCountOf g sel
  if usedRainbow g sel then
    fun c => (t c).map fun v => max 0 (v - len)
  else
    match chainColorOf g sel with
    | some cc =>
        fun c =>
          if c = cc then
            (t cc).map fun v => max 0 (v - len * (if usedSpecial g sel then 2 else 1))
          else t c
    | none => t

/-- All tile colors, for iterating over the possible target keys. -/
def allColors : List BallColor :=
  [BallColor.red, BallColor.blue, BallColor.yellow, BallColor.green,
   BallColor.purple, BallColor.rainbow, BallColor.special]

/-- The check `Object.values(newTargets).every(count => count === 0)`: every active
target has reached zero. -/
def allTargetsZero (t : BallColor → Option Int) : Bool :=
  allColors.all fun c =>
    match t c with
    | some v => v == 0
    | none => true

/-- Moves refund of a commit before the breakout bonus: `+3` per collected
`moves` powerup, `+1` for a super (≥ 10) removal. -/
def addedMovesOf (g : Grid) (sel : List Pos) : Int :=
  addedMovesBase g sel + (if 10 ≤ removalCountOf g sel then 1 else 0)

/-- Score delta of a commit before the breakout bonus:
`removalCount × 10 × tierMultiplier`, doubled while a score multiplier is
active or a `multiplier` powerup is collected. -/
def scoreDeltaOf (g : Grid) (sel : List Pos) (multiplierTurns : Nat) : Int :=
  let n := removalCountOf g sel
  let base : Int := (n : Int) * 10
  let tierMult : Int := if 10 ≤ n then 4 else if 5 ≤ n then 2 else 1
  if 0 < multiplierTurns || activatedMultiplier g sel then base * (tierMult * 2)
  else base * tierMult

/-- Resolution of a valid commit (the body under the `firstBall` check of
`handlePointerUp`).  The combo-breakout `+500` score and `+2` moves are
applied on top of the commit's own deltas, and the win/loss check uses the
pre-breakout `newMoves` value, as in the source. -/
def resolveValid (st : GameSt) (sel : List Pos) (fresh : Nat → Nat → BallColor) :
    GameSt :=
  let g := st.grid
  let inc := comboIncrement (removalCountOf g sel)
  let breakout := 100 ≤ st.comboMeter + inc
  let newMoves := st.moves - 1 + addedMovesOf g sel
  { level := st.level
    grid := applyGravity (rewardedGridOf g sel) fresh
    score := st.score + scoreDeltaOf g sel st.multiplierTurns + (if breakout then 500 else 0)
    moves := newMoves + (if breakout then 2 else 0)
    targets := targetsAfter g sel st.targets
    phase :=
      if allTargetsZero (targetsAfter g sel st.targets) then Phase.levelup
      else if newMoves ≤ 0 then Phase.lost
      else st.phase
    multiplierTurns :=
      if activatedMultiplier g sel then 3
      else if 0 < st.multiplierTurns then st.multiplierTurns - 1
      else st.multiplierTurns
    combo := st.combo + 1
    comboMeter := if breakout then 0 else st.comboMeter + inc }

/-- The pointer-release handler of `part_001`.  Note the nesting, kept
exactly as in the source: the combo penalty branch is the `else` of the
`if (firstBall)` check, itself inside `if (selection.length >= MIN_MATCH)`,
so it fires only for a chain of length ≥ 3 whose first cell is empty. -/
def handlePointerUp (st : GameSt) (sel : List Pos) (fresh : Nat → Nat → BallColor) :
    GameSt :=
  if MIN_MATCH ≤ sel.length ∧ st.phase = Phase.playing then
    match getCell st.grid (sel.headD ⟨0, 0⟩).r (sel.headD ⟨0, 0⟩).c with
    | some _ => resolveValid st sel fresh
    | none =>
        if 0 < sel.length then
          { st with combo := 0, comboMeter := max 0 (st.comboMeter - 15) }
        else st
  else st

/-! Level and phase handlers of `part_001`.

Only the state mutations matter here; the randomly generated grid and level
configuration are supplied as oracle arguments. -/

/-- A level configuration: move budget plus color targets. -/
structure LevelConfig where
  moves : Int
  targets : BallColor → Option Int

/-- Handler `startGame`: home screen → playing. -/
def startGame (st : GameSt) : GameSt :=
  { st with phase := Phase.playing }

/-- Handler `startNextLevel`: advance the level index, regenerate the grid, reset
moves and targets from the next config, clear the multiplier buff. -/
def startNextLevel (st : GameSt) (g : Grid) (cfg : LevelConfig) : GameSt :=
  { st with
      level := st.level + 1
      grid := g
      moves := cfg.moves
      targets := cfg.targets
      phase := Phase.playing
      multiplierTurns := 0 }

/-- Handler `resetGame`: back to level 0 with a fresh grid, zero score. -/
def resetGame (st : GameSt) (g : Grid) (cfg : LevelConfig) : GameSt :=
  { st with
      level := 0
      grid := g
      score := 0
      moves := cfg.moves
      targets := cfg.targets
      phase := Phase.playing
      multiplierTurns := 0 }

/-- Handler `goToHome`: back to the home screen, zeroing score, combo state and the
multiplier buff. -/
def goToHome (st : GameSt) (g : Grid) (cfg : LevelConfig) : GameSt :=
  { st with
      level := 0
      grid := g
      score := 0
      moves := cfg.moves
      targets := cfg.targets
      phase := Phase.home
      multiplierTurns := 0
      combo := 0
      comboMeter := 0 }

/-! The simple variant (`src/src/App.tsx`, and `part_000` without levels).

No powerups, no wildcards: the chain color is the first ball's color, the
bonus flag is `selection.length > 5` (strict), the commit always costs
exactly one move, and a win advances to `levelup` or `won` depending on
whether authored levels remain (`LEVELS.length = 5`). -/

/-- Game state of the simple variant. -/
structure SimpleSt where
  level : Nat
  grid : Grid
  score : Int
  moves : Int
  targets : BallColor → Option Int
  phase : Phase

/-- Number of authored levels in `App.tsx` (`LEVELS.length`). -/
def LEVELS_LENGTH : Nat := 5

/-- The pointer-release handler of `App.tsx`. -/
def simplePointerUp (st : SimpleSt) (sel : List Pos) (fresh : Nat → Nat → BallColor) :
    SimpleSt :=
  if MIN_MATCH ≤ sel.length ∧ st.phase = Phase.playing then
    match getCell st.grid (sel.headD ⟨0, 0⟩).r (sel.headD ⟨0, 0⟩).c with
    | none => st
    | some firstBall =>
        let color := firstBall.color
        let isBonus := 5 < sel.length
        let cleared := sel.foldl (fun ng p => setCell ng p.r p.c none) st.grid
        let baseScore : Int := (sel.length : Int) * 10
        let bonusMultiplier : Int := if isBonus then 2 else 1
        let newMoves := st.moves - 1
        let newTargets : BallColor → Option Int := fun c =>
          if c = color then (st.targets color).map fun v => max 0 (v - (sel.length : Int))
          else st.targets c
        { level := st.level
          grid := applyGravity cleared fresh
          score := st.score + baseScore * bonusMultiplier
          moves := newMoves
          targets := newTargets
          phase :=
            if allTargetsZero newTargets then
              if st.level < LEVELS_LENGTH - 1 then Phase.levelup else Phase.won
            else if newMoves ≤ 0 then Phase.lost
            else st.phase }
  else st

/-! Concrete states used by the witnesses. -/

/-- A yellow tile with no powerup. -/
def yTile : Option Ball := some ⟨BallColor.yellow, none⟩

/-- A red tile with no powerup. -/
def rTile : Option Ball := some ⟨BallColor.red, none⟩

/-- The 8×5 grid of the spec's first scenario: all yellow except a red tile
at (0,0). -/
def wGrid : Grid :=
  [[rTile, yTile, yTile, yTile, yTile],
   [yTile, yTile, yTile, yTile, yTile],
   [yTile, yTile, yTile, yTile, yTile],
   [yTile, yTile, yTile, yTile, yTile],
   [yTile, yTile, yTile, yTile, yTile],
   [yTile, yTile, yTile, yTile, yTile],
   [yTile, yTile, yTile, yTile, yTile],
   [yTile, yTile, yTile, yTile, yTile]]

/-- The 5-cell yellow chain of the spec's first scenario. -/
def wSel : List Pos := [⟨0, 1⟩, ⟨0, 2⟩, ⟨0, 3⟩, ⟨0, 4⟩, ⟨1, 4⟩]

/-- Targets of the spec's first scenario: yellow 10, red 10. -/
def wTargets : BallColor → Option Int := fun c =>
  match c with
  | BallColor.yellow => some 10
  | BallColor.red => some 10
  | _ => none

/-- A deterministic refill oracle for the witnesses. -/
def wFresh : Nat → Nat → BallColor := fun _ _ => BallColor.blue

/-- The game state of the spec's first scenario. -/
def wSt : GameSt :=
  { level := 0, grid := wGrid, score := 0, moves := 20, targets := wTargets,
    phase := Phase.playing, multiplierTurns := 0, combo := 0, comboMeter := 0 }

/-! Helper lemmas for reading the reassembled grid. -/

theorem getD_map_range {α : Type} (n i : Nat) (f : Nat → α) (d : α) (h : i < n) :
    ((List.range n).map f).getD i d = f i := by
  rw [List.getD_eq_getElem?_getD, List.getElem?_map, List.getElem?_range h]
  rfl

theorem map_getD_range_self {α : Type} (l : List α) (d : α) :
    (List.range l.length).map (fun i => l.getD i d) = l := by
  apply List.ext_getElem
  · simp
  · intro i h1 h2
    simp only [List.getElem_map, List.getElem_range]
    rw [List.getD_eq_getElem?_getD, List.getElem?_eq_getElem h2]
    rfl

/-- Reading a column of the reassembled grid gives the per-column result. -/
theorem columnOf_applyGravity (g : Grid) (fresh : Nat → Nat → BallColor) (c : Nat)
    (hc : c < COLS) :
    columnOf (applyGravity g fresh) c = applyGravityCol (columnOf g c) (fresh c) := by
  have hlen : (applyGravityCol (columnOf g c) (fresh c)).length = ROWS := by
    rw [applyGravityCol_eq]
    have h1 := countNone_add_filterMap (columnOf g c)
    have h2 : (columnOf g c).length = ROWS := by simp [columnOf]
    simp only [List.length_append, List.length_map, List.length_range]
    omega
  have hcell : ∀ r, r < ROWS →
      getCell (applyGravity g fresh) r c
        = (applyGravityCol (columnOf g c) (fresh c)).getD r none := by
    intro r hr
    unfold applyGravity getCell
    rw [getD_map_range ROWS r _ [] hr, getD_map_range COLS c _ none hc,
      getD_map_range COLS c _ [] hc]
  unfold columnOf
  calc (List.range ROWS).map (fun r => getCell (applyGravity g fresh) r c)
      = (List.range ROWS).map
          (fun r => (applyGravityCol (columnOf g c) (fresh c)).getD r none) := by
        apply List.map_congr_left
        intro r hr
        exact hcell r (List.mem_range.mp hr)
    _ = applyGravityCol (columnOf g c) (fresh c) := by
        rw [← hlen]
        exact map_getD_range_self _ none

/-- C4: for every input grid, after gravity and refill every column contains
zero empty cells, and each column equals the freshly generated tiles on top
(one per vacated cell) followed by the input column's occupied cells,
compacted downward with their relative order preserved. -/
theorem applyGravity_stable_and_full (g : Grid) (fresh : Nat → Nat → BallColor)
    (c : Nat) (hc : c < COLS) :
    (∀ x ∈ columnOf (applyGravity g fresh) c, x.isSome = true) ∧
    columnOf (applyGravity g fresh) c
      = (List.range (countNone (columnOf g c))).map (fun r => some ⟨fresh c r, none⟩)
          ++ ((columnOf g c).filterMap id).map some := by
  rw [columnOf_applyGravity g fresh c hc, applyGravityCol_eq]
  refine ⟨?_, rfl⟩
  intro x hx
  rcases List.mem_append.mp hx with h | h
  · rcases List.mem_map.mp h with ⟨r, _, rfl⟩
    rfl
  · rcases List.mem_map.mp h with ⟨b, _, rfl⟩
    rfl

/-- A grid with empty cells, to exercise the gravity witness. -/
def holeyGrid : Grid :=
  [[rTile, yTile, yTile, yTile, yTile],
   [none, yTile, yTile, yTile, yTile],
   [yTile, yTile, none, yTile, yTile],
   [none, yTile, yTile, yTile, yTile],
   [yTile, yTile, yTile, yTile, yTile],
   [yTile, yTile, none, yTile, yTile],
   [yTile, yTile, yTile, yTile, none],
   [yTile, yTile, yTile, yTile, yTile]]

/-- Witness for C4 at a concrete grid with holes in column 0. -/
theorem applyGravity_stable_and_full_witness :
    (∀ x ∈ columnOf (applyGravity holeyGrid wFresh) 0, x.isSome = true) ∧
    columnOf (applyGravity holeyGrid wFresh) 0
      = (List.range (countNone (columnOf holeyGrid 0))).map
            (fun r => some ⟨wFresh 0 r, none⟩)
          ++ ((columnOf holeyGrid 0).filterMap id).map some :=
  applyGravity_stable_and_full holeyGrid wFresh 0 (by decide)

/-- Every branch of `handleCellEnter` keeps the chain, pops its last element
(only when it has at least two), or appends the entered cell. -/
theorem handleCellEnter_cases (g : Grid) (r c : Nat) (prev : List Pos) :
    handleCellEnter g r c prev = prev ∨
    (1 < prev.length ∧ handleCellEnter g r c prev = prev.dropLast) ∨
    handleCellEnter g r c prev = prev ++ [⟨r, c⟩] := by
  unfold handleCellEnter
  by_cases h0 : prev.length = 0
  · rw [if_pos h0]; exact Or.inl rfl
  · rw [if_neg h0]
    by_cases hbt : prev.length > 1 ∧ prev.getD (prev.length - 2) ⟨0, 0⟩ = ⟨r, c⟩
    · rw [if_pos hbt]; exact Or.inr (Or.inl ⟨hbt.1, rfl⟩)
    · rw [if_neg hbt]
      by_cases hdup : (prev.any fun s => s.r == r && s.c == c) = true
      · rw [if_pos hdup]; exact Or.inl rfl
      · rw [if_neg hdup]
        by_cases hadj : isAdjacentB (prev.getD (prev.length - 1) ⟨0, 0⟩) r c = true
        · rw [if_pos hadj]
          match hcell : getCell g r c with
          | none => exact Or.inl rfl
          | some ball =>
              dsimp only
              by_cases hwild : ball.color = BallColor.rainbow ∨ ball.color = BallColor.special
              · rw [if_pos hwild]; exact Or.inr (Or.inr rfl)
              · rw [if_neg hwild]
                match htc : chainColorOf g prev with
                | none => exact Or.inr (Or.inr rfl)
                | some tc =>
                    dsimp only
                    by_cases hcol : ball.color = tc
                    · rw [if_pos hcol]; exact Or.inr (Or.inr rfl)
                    · rw [if_neg hcol]; exact Or.inl rfl
        · rw [if_neg hadj]; exact Or.inl rfl

/-- C10: `handleCellEnter` never empties a non-empty chain: the backtrack
rule fires only on a chain of length ≥ 2 and removes a single element, and
every other branch appends one element or leaves the chain unchanged. -/
theorem handleCellEnter_preserves_nonempty (g : Grid) (r c : Nat) (sel : List Pos)
    (h : 1 ≤ sel.length) : 1 ≤ (handleCellEnter g r c sel).length := by
  rcases handleCellEnter_cases g r c sel with he | ⟨hl, he⟩ | he <;> rw [he]
  · exact h
  · simp only [List.length_dropLast]; omega
  · simp only [List.length_append, List.length_singleton]; omega

/-- Witness for C10: extending the one-element chain at (0,1) keeps it
non-empty. -/
theorem handleCellEnter_preserves_nonempty_witness :
    1 ≤ (handleCellEnter wGrid 0 2 [⟨0, 1⟩]).length :=
  handleCellEnter_preserves_nonempty wGrid 0 2 [⟨0, 1⟩] (by decide)

/-! The selection invariant (C5). -/

theorem getLast?_eq_getD {α : Type} (l : List α) (d : α) (h : l ≠ []) :
    l.getLast? = some (l.getD (l.length - 1) d) := by
  rw [List.getLast?_eq_getLast l h, List.getD_eq_getElem?_getD]
  have hlt : l.length - 1 < l.length := by
    have := List.length_pos.mpr h
    omega
  rw [List.getElem?_eq_getElem hlt]
  simp [List.getLast_eq_getElem]

/-- If the chain has no established color, every occupied chain cell is a
wildcard. -/
theorem chainColorOf_none {g : Grid} {sel : List Pos} (h : chainColorOf g sel = none)
    {p : Pos} (hp : p ∈ sel) {b : Ball} (hb : getCell g p.r p.c = some b) :
    b.color = BallColor.rainbow ∨ b.color = BallColor.special := by
  rw [chainColorOf, List.findSome?_eq_none_iff] at h
  have hpp := h p hp
  simp only [hb] at hpp
  by_contra hcon
  push_neg at hcon
  rw [if_pos ⟨hcon.1, hcon.2⟩] at hpp
  exact Option.some_ne_none _ hpp

/-- An established chain color is witnessed by a non-wildcard cell of the
chain with that color. -/
theorem chainColorOf_some {g : Grid} {sel : List Pos} {tc : BallColor}
    (h : chainColorOf g sel = some tc) :
    ∃ p ∈ sel, ∃ b, getCell g p.r p.c = some b ∧
      b.color = tc ∧ b.color ≠ BallColor.rainbow ∧ b.color ≠ BallColor.special := by
  rw [chainColorOf] at h
  obtain ⟨p, hp, hf⟩ := List.exists_of_findSome?_eq_some h
  cases hcell : getCell g p.r p.c with
  | none => rw [hcell] at hf; exact absurd hf (by simp)
  | some b =>
      simp only [hcell] at hf
      by_cases hcond : b.color ≠ BallColor.rainbow ∧ b.color ≠ BallColor.special
      · rw [if_pos hcond] at hf
        exact ⟨p, hp, b, hcell, Option.some.inj hf, hcond.1, hcond.2⟩
      · rw [if_neg hcond] at hf
        exact absurd hf (by simp)

/-- The invariant holds for the one-element chain created by
`handlePointerDown` on an occupied cell. -/
theorem chainInv_singleton (g : Grid) (r c : Nat)
    (h : (getCell g r c).isSome) : chainInv g [⟨r, c⟩] := by
  refine ⟨List.chain'_singleton _, List.nodup_singleton _, ?_, ?_⟩
  · intro p hp
    rw [List.mem_singleton] at hp
    subst hp
    exact h
  · intro p hp q hq bp bq hbp hbq _ _ _ _
    rw [List.mem_singleton] at hp hq
    subst hp; subst hq
    rw [hbp] at hbq
    rw [Option.some.inj hbq]

/-- The invariant survives retracting the last chain element. -/
theorem chainInv_dropLast {g : Grid} {sel : List Pos} (h : chainInv g sel) :
    chainInv g sel.dropLast := by
  obtain ⟨hch, hnd, hocc, hcol⟩ := h
  refine ⟨hch.init, hnd.sublist (List.dropLast_sublist sel), ?_, ?_⟩
  · intro p hp
    exact hocc p (List.dropLast_subset sel hp)
  · intro p hp q hq
    exact hcol p (List.dropLast_subset sel hp) q (List.dropLast_subset sel hq)

/-- The invariant survives appending an adjacent, color-compatible, occupied
cell not already in the chain. -/
theorem chainInv_append {g : Grid} {sel : List Pos} {r c : Nat} (h : chainInv g sel)
    (hne : sel ≠ [])
    (hadj : isAdjacentB (sel.getD (sel.length - 1) ⟨0, 0⟩) r c = true)
    (hdup : ¬(sel.any fun s => s.r == r && s.c == c) = true)
    {ball : Ball} (hcell : getCell g r c = some ball)
    (hcolor : ball.color = BallColor.rainbow ∨ ball.color = BallColor.special ∨
      chainColorOf g sel = none ∨ chainColorOf g sel = some ball.color) :
    chainInv g (sel ++ [⟨r, c⟩]) := by
  obtain ⟨hch, hnd, hocc, hcol⟩ := h
  have hnotmem : (⟨r, c⟩ : Pos) ∉ sel := by
    intro hmem
    exact hdup (List.any_eq_true.mpr ⟨⟨r, c⟩, hmem, by simp⟩)
  refine ⟨?_, ?_, ?_, ?_⟩
  · rw [List.chain'_append]
    refine ⟨hch, List.chain'_singleton _, ?_⟩
    intro x hx y hy
    rw [getLast?_eq_getD sel ⟨0, 0⟩ hne] at hx
    rw [Option.mem_def, Option.some.injEq] at hx
    simp only [List.head?_cons, Option.mem_def, Option.some.injEq] at hy
    subst hx; subst hy
    exact hadj
  · rw [List.nodup_append]
    refine ⟨hnd, List.nodup_singleton _, ?_⟩
    intro a ha hb
    rw [List.mem_singleton] at hb
    subst hb
    exact hnotmem ha
  · intro p hp
    rcases List.mem_append.mp hp with hp | hp
    · exact hocc p hp
    · rw [List.mem_singleton] at hp
      subst hp
      rw [hcell]
      rfl
  · intro p hp q hq bp bq hbp hbq hp1 hp2 hq1 hq2
    have hx : ∀ x : Pos, x ∈ sel ++ [⟨r, c⟩] → x ∈ sel ∨ x = ⟨r, c⟩ := by
      intro x hmem
      rcases List.mem_append.mp hmem with hm | hm
      · exact Or.inl hm
      · exact Or.inr (List.mem_singleton.mp hm)
    have hball : ∀ b', getCell g r c = some b' → b' = ball := by
      intro b' hb'
      rw [hcell] at hb'
      exact (Option.some.inj hb').symm
    have hmain : ∀ b', getCell g r c = some b' →
        b'.color ≠ BallColor.rainbow → b'.color ≠ BallColor.special →
        ∀ p' ∈ sel, ∀ bp', getCell g p'.r p'.c = some bp' →
          bp'.color ≠ BallColor.rainbow → bp'.color ≠ BallColor.special →
          bp'.color = b'.color := by
      intro b' hb' hb1 hb2 p' hp' bp' hbp' hc1 hc2
      have hbb : b' = ball := hball b' hb'
      subst hbb
      rcases hcolor with hw | hw | hw | hw
      · exact absurd hw hb1
      · exact absurd hw hb2
      · rcases chainColorOf_none hw hp' hbp' with h1 | h1
        · exact absurd h1 hc1
        · exact absurd h1 hc2
      · obtain ⟨p₀, hp₀, b₀, hb₀, hb₀c, hb₀1, hb₀2⟩ := chainColorOf_some hw
        have := hcol p' hp' p₀ hp₀ bp' b₀ hbp' hb₀ hc1 hc2 hb₀1 hb₀2
        rw [this, hb₀c]
    rcases hx p hp with hp' | hp' <;> rcases hx q hq with hq' | hq'
    · exact hcol p hp' q hq' bp bq hbp hbq hp1 hp2 hq1 hq2
    · subst hq'
      exact hmain bq hbq hq1 hq2 p hp' bp hbp hp1 hp2
    · subst hp'
      exact (hmain bp hbp hp1 hp2 q hq' bq hbq hq1 hq2).symm
    · subst hp'; subst hq'
      rw [hbp] at hbq
      rw [Option.some.inj hbq]

/-- The invariant is preserved by every `handleCellEnter` transition. -/
theorem chainInv_extend (g : Grid) (r c : Nat) (sel : List Pos)
    (h : chainInv g sel) : chainInv g (handleCellEnter g r c sel) := by
  unfold handleCellEnter
  by_cases h0 : sel.length = 0
  · rw [if_pos h0]; exact h
  · rw [if_neg h0]
    have hne : sel ≠ [] := by
      intro hq; subst hq; exact h0 rfl
    by_cases hbt : sel.length > 1 ∧ sel.getD (sel.length - 2) ⟨0, 0⟩ = ⟨r, c⟩
    · rw [if_pos hbt]; exact chainInv_dropLast h
    · rw [if_neg hbt]
      by_cases hdup : (sel.any fun s => s.r == r && s.c == c) = true
      · rw [if_pos hdup]; exact h
      · rw [if_neg hdup]
        by_cases hadj : isAdjacentB (sel.getD (sel.length - 1) ⟨0, 0⟩) r c = true
        · rw [if_pos hadj]
          match hcell : getCell g r c with
          | none => exact h
          | some ball =>
              dsimp only
              by_cases hwild : ball.color = BallColor.rainbow ∨ ball.color = BallColor.special
              · rw [if_pos hwild]
                refine chainInv_append h hne hadj hdup hcell ?_
                rcases hwild with hw | hw
                · exact Or.inl hw
                · exact Or.inr (Or.inl hw)
              · rw [if_neg hwild]
                match htc : chainColorOf g sel with
                | none =>
                    exact chainInv_append h hne hadj hdup hcell (Or.inr (Or.inr (Or.inl htc)))
                | some tc =>
                    dsimp only
                    by_cases hcol : ball.color = tc
                    · rw [if_pos hcol]
                      refine chainInv_append h hne hadj hdup hcell ?_
                      rw [hcol]
                      exact Or.inr (Or.inr (Or.inr htc))
                    · rw [if_neg hcol]; exact h
        · rw [if_neg hadj]; exact h

/-- C5: every chain reachable through `handlePointerDown` followed by any
sequence of `handleCellEnter` events satisfies the selection invariant:
consecutive elements king-adjacent, duplicate-free, every element occupied,
and all non-wildcard elements sharing one color. -/
theorem reachable_chainInv (g : Grid) (sel : List Pos)
    (h : Reachable g sel) : chainInv g sel := by
  induction h with
  | start r c hocc => exact chainInv_singleton g r c hocc
  | extend sel r c _ ih => exact chainInv_extend g r c sel ih

/-- Witness for C5: the two-step chain (0,1)–(0,2) on the scenario grid is
reachable and satisfies the invariant. -/
theorem reachable_chainInv_witness : chainInv wGrid [⟨0, 1⟩, ⟨0, 2⟩] := by
  have h1 : Reachable wGrid [⟨0, 1⟩] := Reachable.start 0 1 (by decide)
  have h2 := Reachable.extend [⟨0, 1⟩] 0 2 h1
  have he : handleCellEnter wGrid 0 2 [⟨0, 1⟩] = [⟨0, 1⟩, ⟨0, 2⟩] := by decide
  rw [he] at h2
  exact reachable_chainInv wGrid [⟨0, 1⟩, ⟨0, 2⟩] h2

/-! Commit-resolution lemmas. -/

/-- A chain of powerup-free cells yields no powerup on any scan. -/
theorem powerupOf_eq_none {g : Grid} {sel : List Pos}
    (h : ∀ p ∈ sel, ∀ b, getCell g p.r p.c = some b → b.powerup = none) :
    ∀ p ∈ sel, powerupOf g p = none := by
  intro p hp
  unfold powerupOf
  cases hc : getCell g p.r p.c with
  | none => rfl
  | some b => exact h p hp b hc

theorem activatedBomb_eq_false {g : Grid} {sel : List Pos}
    (h : ∀ p ∈ sel, powerupOf g p = none) : activatedBomb g sel = false := by
  rw [activatedBomb, List.any_eq_false]
  intro p hp
  rw [h p hp]
  simp

theorem activatedMultiplier_eq_false {g : Grid} {sel : List Pos}
    (h : ∀ p ∈ sel, powerupOf g p = none) : activatedMultiplier g sel = false := by
  rw [activatedMultiplier, List.any_eq_false]
  intro p hp
  rw [h p hp]
  simp

theorem addedMovesBase_eq_zero {g : Grid} {sel : List Pos}
    (h : ∀ p ∈ sel, powerupOf g p = none) : addedMovesBase g sel = 0 := by
  rw [addedMovesBase]
  have aux : ∀ (l : List Pos), (∀ p ∈ l, powerupOf g p = none) → ∀ acc : Int,
      l.foldl (fun acc p => if powerupOf g p = some PowerupType.moves then acc + 3 else acc) acc
        = acc := by
    intro l
    induction l with
    | nil => intro _ acc; rfl
    | cons p t ih =>
        intro hl acc
        rw [List.foldl_cons]
        rw [if_neg (by rw [hl p (List.mem_cons_self p t)]; simp)]
        exact ih (fun q hq => hl q (List.mem_cons_of_mem p hq)) acc
  exact aux sel h 0

/-- Without a bomb powerup the removal set is the drawn chain itself. -/
theorem finalSelection_no_bomb {g : Grid} {sel : List Pos}
    (hbomb : activatedBomb g sel = false) : finalSelectionOf g sel = sel := by
  unfold finalSelectionOf
  rw [hbomb]
  cases chainColorOf g sel <;> rfl

/-- The removal set always contains the drawn chain, so its size is at least
the chain length. -/
theorem length_le_removalCount (g : Grid) (sel : List Pos) :
    sel.length ≤ removalCountOf g sel := by
  unfold removalCountOf finalSelectionOf
  cases hcc : chainColorOf g sel with
  | none => cases activatedBomb g sel <;> simp
  | some color =>
      cases hb : activatedBomb g sel with
      | false => simp
      | true =>
          have aux : ∀ (l : List Pos) (acc : List Pos),
              acc.length ≤ (l.foldl
                (fun fs p =>
                  match getCell g p.r p.c with
                  | some b =>
                      if b.color == color && !(fs.any fun s => s.r == p.r && s.c == p.c) then
                        fs ++ [p]
                      else fs
                  | none => fs)
                acc).length := by
            intro l
            induction l with
            | nil => intro acc; exact le_refl _
            | cons p t ih =>
                intro acc
                rw [List.foldl_cons]
                refine le_trans ?_ (ih _)
                cases getCell g p.r p.c with
                | none => exact le_refl _
                | some b =>
                    dsimp only
                    split
                    · simp
                    · exact le_refl _
          exact aux allPositions sel

/-- The combo-meter increment of a commit of size ≥ 3 lies in [10, 25]. -/
theorem comboIncrement_bounds (n : Nat) (h : 3 ≤ n) :
    10 ≤ comboIncrement n ∧ comboIncrement n ≤ 25 := by
  unfold comboIncrement
  rcases le_total (25 : Int) (10 + ((n : Int) - 3) * 5) with hle | hle
  · rw [min_eq_left hle]
    omega
  · rw [min_eq_right hle]
    constructor
    · omega
    · omega

/-- A valid pointer release (length ≥ 3, playing, occupied first cell)
resolves through `resolveValid`. -/
theorem handlePointerUp_eq_resolveValid (st : GameSt) (sel : List Pos)
    (fresh : Nat → Nat → BallColor) (hlen : MIN_MATCH ≤ sel.length)
    (hphase : st.phase = Phase.playing) {b : Ball}
    (hocc : getCell st.grid (sel.headD ⟨0, 0⟩).r (sel.headD ⟨0, 0⟩).c = some b) :
    handlePointerUp st sel fresh = resolveValid st sel fresh := by
  unfold handlePointerUp
  rw [if_pos ⟨hlen, hphase⟩, hocc]

theorem resolveValid_score (st : GameSt) (sel : List Pos) (fresh : Nat → Nat → BallColor) :
    (resolveValid st sel fresh).score
      = st.score + scoreDeltaOf st.grid sel st.multiplierTurns
          + (if 100 ≤ st.comboMeter + comboIncrement (removalCountOf st.grid sel) then 500
             else 0) := rfl

theorem resolveValid_moves (st : GameSt) (sel : List Pos) (fresh : Nat → Nat → BallColor) :
    (resolveValid st sel fresh).moves
      = st.moves - 1 + addedMovesOf st.grid sel
          + (if 100 ≤ st.comboMeter + comboIncrement (removalCountOf st.grid sel) then 2
             else 0) := rfl

theorem resolveValid_comboMeter (st : GameSt) (sel : List Pos) (fresh : Nat → Nat → BallColor) :
    (resolveValid st sel fresh).comboMeter
      = if 100 ≤ st.comboMeter + comboIncrement (removalCountOf st.grid sel) then 0
        else st.comboMeter + comboIncrement (removalCountOf st.grid sel) := rfl

theorem resolveValid_targets (st : GameSt) (sel : List Pos) (fresh : Nat → Nat → BallColor) :
    (resolveValid st sel fresh).targets = targetsAfter st.grid sel st.targets := rfl

theorem resolveValid_phase (st : GameSt) (sel : List Pos) (fresh : Nat → Nat → BallColor) :
    (resolveValid st sel fresh).phase
      = if allTargetsZero (targetsAfter st.grid sel st.targets) then Phase.levelup
        else if st.moves - 1 + addedMovesOf st.grid sel ≤ 0 then Phase.lost
        else st.phase := rfl

/-- C1: committing a valid chain of exactly 5 same-colored cells with no
powerups and no wildcards (fresh multiplier and no combo breakout) is tier
`bonus` and adds exactly 5 × 10 × 2 = 100 points; and any removal set of
size at least 5 is tier `bonus` or better. -/
theorem fiveChain_bonus_adds_100 (st : GameSt) (sel : List Pos)
    (fresh : Nat → Nat → BallColor) (n : Nat)
    (hphase : st.phase = Phase.playing)
    (hlen : sel.length = 5)
    {b : Ball}
    (hocc : getCell st.grid (sel.headD ⟨0, 0⟩).r (sel.headD ⟨0, 0⟩).c = some b)
    (hclean : ∀ p ∈ sel, ∀ bb, getCell st.grid p.r p.c = some bb →
        bb.powerup = none ∧ bb.color ≠ BallColor.rainbow ∧ bb.color ≠ BallColor.special)
    (hmult : st.multiplierTurns = 0)
    (hmeter : st.comboMeter + comboIncrement (removalCountOf st.grid sel) < 100)
    (hn : 5 ≤ n) :
    tierOf (removalCountOf st.grid sel) = Tier.bonus ∧
    (handlePointerUp st sel fresh).score = st.score + 100 ∧
    (tierOf n = Tier.bonus ∨ tierOf n = Tier.super) := by
  have hpow : ∀ p ∈ sel, powerupOf st.grid p = none :=
    powerupOf_eq_none fun p hp bb hbb => (hclean p hp bb hbb).1
  have hrc : removalCountOf st.grid sel = 5 := by
    rw [removalCountOf, finalSelection_no_bomb (activatedBomb_eq_false hpow), hlen]
  refine ⟨?_, ?_, ?_⟩
  · rw [hrc]; rfl
  · rw [handlePointerUp_eq_resolveValid st sel fresh (by rw [hlen]; decide) hphase hocc]
    rw [resolveValid_score, if_neg (not_le.mpr hmeter)]
    have hsd : scoreDeltaOf st.grid sel st.multiplierTurns = 100 := by
      rw [scoreDeltaOf, hrc, hmult, activatedMultiplier_eq_false hpow]
      norm_num
    rw [hsd]
    ring
  · unfold tierOf
    by_cases h10 : 10 ≤ n
    · rw [if_pos h10]
      exact Or.inr rfl
    · rw [if_neg h10, if_pos hn]
      exact Or.inl rfl

/-- Witness for C1: the spec's scenario grid and 5-cell yellow chain. -/
theorem fiveChain_bonus_adds_100_witness :
    tierOf (removalCountOf wGrid wSel) = Tier.bonus ∧
    (handlePointerUp wSt wSel wFresh).score = wSt.score + 100 ∧
    (tierOf 7 = Tier.bonus ∨ tierOf 7 = Tier.super) :=
  fiveChain_bonus_adds_100 wSt wSel wFresh 7 (by decide) (by decide)
    (b := ⟨BallColor.yellow, none⟩) (by decide) (by decide) (by decide) (by decide)
    (by decide)

/-- A valid pointer release in the simple variant, written out. -/
theorem simplePointerUp_eq (st : SimpleSt) (sel : List Pos)
    (fresh : Nat → Nat → BallColor) (fb : Ball)
    (hlen : MIN_MATCH ≤ sel.length) (hphase : st.phase = Phase.playing)
    (hocc : getCell st.grid (sel.headD ⟨0, 0⟩).r (sel.headD ⟨0, 0⟩).c = some fb) :
    simplePointerUp st sel fresh =
      { level := st.level
        grid := applyGravity (sel.foldl (fun ng p => setCell ng p.r p.c none) st.grid) fresh
        score := st.score + (sel.length : Int) * 10 * (if 5 < sel.length then 2 else 1)
        moves := st.moves - 1
        targets := fun c =>
          if c = fb.color then
            (st.targets fb.color).map fun v => max 0 (v - (sel.length : Int))
          else st.targets c
        phase :=
          if allTargetsZero (fun c =>
              if c = fb.color then
                (st.targets fb.color).map fun v => max 0 (v - (sel.length : Int))
              else st.targets c) then
            if st.level < LEVELS_LENGTH - 1 then Phase.levelup else Phase.won
          else if st.moves - 1 ≤ 0 then Phase.lost
          else st.phase } := by
  unfold simplePointerUp
  rw [if_pos ⟨hlen, hphase⟩, hocc]

/-- C2: in the simple variant, committing a valid chain of length L ≥ 3 with
no powerup and no wildcard whose color has an active non-negative target
decreases that target by exactly min(currentTargetValue, L), leaves every
other target unchanged, and decreases movesRemaining by exactly 1. -/
theorem commit_decrements_target_and_move (st : SimpleSt) (sel : List Pos)
    (fresh : Nat → Nat → BallColor) (fb : Ball) (v : Int)
    (hphase : st.phase = Phase.playing)
    (hlen : MIN_MATCH ≤ sel.length)
    (hocc : getCell st.grid (sel.headD ⟨0, 0⟩).r (sel.headD ⟨0, 0⟩).c = some fb)
    (hclean : ∀ p ∈ sel, ∀ bb, getCell st.grid p.r p.c = some bb →
        bb.powerup = none ∧ bb.color ≠ BallColor.rainbow ∧ bb.color ≠ BallColor.special)
    (hv : st.targets fb.color = some v) (hv0 : 0 ≤ v) :
    (simplePointerUp st sel fresh).targets fb.color
        = some (v - min v (sel.length : Int)) ∧
    (∀ c, c ≠ fb.color → (simplePointerUp st sel fresh).targets c = st.targets c) ∧
    (simplePointerUp st sel fresh).moves = st.moves - 1 := by
  rw [simplePointerUp_eq st sel fresh fb hlen hphase hocc]
  refine ⟨?_, ?_, rfl⟩
  · simp only [if_pos rfl, hv, Option.map_some']
    have : max 0 (v - (sel.length : Int)) = v - min v (sel.length : Int) := by
      have : (0 : Int) ≤ (sel.length : Int) := Int.natCast_nonneg _
      omega
    rw [this]
    simp
  · intro c hne
    simp only [if_neg hne]

/-- A simple-variant state matching the spec scenario. -/
def sSt : SimpleSt :=
  { level := 0, grid := wGrid, score := 0, moves := 20, targets := wTargets,
    phase := Phase.playing }

/-- Witness for C2: the scenario chain drops yellow from 10 to 5 and costs
one move. -/
theorem commit_decrements_target_and_move_witness :
    (simplePointerUp sSt wSel wFresh).targets (Ball.mk BallColor.yellow none).color
        = some (10 - min 10 (wSel.length : Int)) ∧
    (∀ c, c ≠ (Ball.mk BallColor.yellow none).color →
        (simplePointerUp sSt wSel wFresh).targets c = sSt.targets c) ∧
    (simplePointerUp sSt wSel wFresh).moves = sSt.moves - 1 :=
  commit_decrements_target_and_move sSt wSel wFresh ⟨BallColor.yellow, none⟩ 10
    (by decide) (by decide) (by decide) (by decide) (by decide) (by decide)

/-- C3: at the moment a commit resolves, the win check precedes the loss
check — if the commit zeroes all targets the phase becomes `levelup` even
when moves hit zero, loss fires only when targets remain outstanding and the
move count reaches zero, and no other phase transition of the engine ever
produces `lost`. -/
theorem winCheck_precedes_lossCheck (st : GameSt) (sel : List Pos)
    (fresh : Nat → Nat → BallColor) (g : Grid) (cfg : LevelConfig)
    (hlen : MIN_MATCH ≤ sel.length)
    (hphase : st.phase = Phase.playing)
    {b : Ball}
    (hocc : getCell st.grid (sel.headD ⟨0, 0⟩).r (sel.headD ⟨0, 0⟩).c = some b) :
    ((allTargetsZero (targetsAfter st.grid sel st.targets) = true →
        (handlePointerUp st sel fresh).phase = Phase.levelup ∧
        (handlePointerUp st sel fresh).phase ≠ Phase.lost) ∧
     (allTargetsZero (targetsAfter st.grid sel st.targets) = false →
        st.moves - 1 + addedMovesOf st.grid sel ≤ 0 →
        (handlePointerUp st sel fresh).phase = Phase.lost) ∧
     (allTargetsZero (targetsAfter st.grid sel st.targets) = false →
        0 < st.moves - 1 + addedMovesOf st.grid sel →
        (handlePointerUp st sel fresh).phase = st.phase)) ∧
    ((startGame st).phase ≠ Phase.lost ∧ (startNextLevel st g cfg).phase ≠ Phase.lost ∧
     (resetGame st g cfg).phase ≠ Phase.lost ∧ (goToHome st g cfg).phase ≠ Phase.lost) ∧
    (∀ st' : GameSt, ∀ sel' : List Pos, ∀ fresh' : Nat → Nat → BallColor,
        (handlePointerUp st' sel' fresh').phase = Phase.lost →
        st'.phase = Phase.lost ∨
          (MIN_MATCH ≤ sel'.length ∧ st'.phase = Phase.playing ∧
           allTargetsZero (targetsAfter st'.grid sel' st'.targets) = false ∧
           st'.moves - 1 + addedMovesOf st'.grid sel' ≤ 0)) := by
  rw [handlePointerUp_eq_resolveValid st sel fresh hlen hphase hocc]
  refine ⟨⟨?_, ?_, ?_⟩, ⟨?_, ?_, ?_, ?_⟩, ?_⟩
  · intro hz
    rw [resolveValid_phase, if_pos hz]
    exact ⟨rfl, by intro hq; exact Phase.noConfusion hq⟩
  · intro hz hm
    rw [resolveValid_phase, if_neg (by rw [hz]; exact Bool.false_ne_true), if_pos hm]
  · intro hz hm
    rw [resolveValid_phase, if_neg (by rw [hz]; exact Bool.false_ne_true),
      if_neg (not_le.mpr hm)]
  · intro hq; exact Phase.noConfusion hq
  · intro hq; exact Phase.noConfusion hq
  · intro hq; exact Phase.noConfusion hq
  · intro hq; exact Phase.noConfusion hq
  · intro st' sel' fresh' hlost
    unfold handlePointerUp at hlost
    by_cases hcond : MIN_MATCH ≤ sel'.length ∧ st'.phase = Phase.playing
    · rw [if_pos hcond] at hlost
      cases hcell : getCell st'.grid (sel'.headD ⟨0, 0⟩).r (sel'.headD ⟨0, 0⟩).c with
      | none =>
          rw [hcell] at hlost
          by_cases h0 : 0 < sel'.length
          · rw [if_pos h0] at hlost
            exact Or.inl hlost
          · rw [if_neg h0] at hlost
            exact Or.inl hlost
      | some bb =>
          rw [hcell] at hlost
          rw [resolveValid_phase] at hlost
          by_cases hz : allTargetsZero (targetsAfter st'.grid sel' st'.targets) = true
          · rw [if_pos hz] at hlost
            exact Phase.noConfusion hlost
          · rw [if_neg hz] at hlost
            by_cases hm : st'.moves - 1 + addedMovesOf st'.grid sel' ≤ 0
            · exact Or.inr ⟨hcond.1, hcond.2, Bool.not_eq_true _ ▸ hz, hm⟩
            · rw [if_neg hm] at hlost
              exact Or.inl hlost
    · rw [if_neg hcond] at hlost
      exact Or.inl hlost

/-- A commit state with one move left whose chain zeroes the only target. -/
def c3St : GameSt :=
  { level := 0, grid := wGrid, score := 0, moves := 1,
    targets := fun c => match c with | BallColor.yellow => some 3 | _ => none,
    phase := Phase.playing, multiplierTurns := 0, combo := 0, comboMeter := 0 }

/-- The 3-cell yellow chain used by the C3 witness. -/
def c3Sel : List Pos := [⟨0, 1⟩, ⟨0, 2⟩, ⟨0, 3⟩]

/-- Witness for C3: with moves dropping to 0 and all targets zeroed by the
same commit, the phase becomes `levelup`, not `lost`. -/
theorem winCheck_precedes_lossCheck_witness :
    ((allTargetsZero (targetsAfter c3St.grid c3Sel c3St.targets) = true →
        (handlePointerUp c3St c3Sel wFresh).phase = Phase.levelup ∧
        (handlePointerUp c3St c3Sel wFresh).phase ≠ Phase.lost) ∧
     (allTargetsZero (targetsAfter c3St.grid c3Sel c3St.targets) = false →
        c3St.moves - 1 + addedMovesOf c3St.grid c3Sel ≤ 0 →
        (handlePointerUp c3St c3Sel wFresh).phase = Phase.lost) ∧
     (allTargetsZero (targetsAfter c3St.grid c3Sel c3St.targets) = false →
        0 < c3St.moves - 1 + addedMovesOf c3St.grid c3Sel →
        (handlePointerUp c3St c3Sel wFresh).phase = c3St.phase)) ∧
    ((startGame c3St).phase ≠ Phase.lost ∧
     (startNextLevel c3St wGrid ⟨20, wTargets⟩).phase ≠ Phase.lost ∧
     (resetGame c3St wGrid ⟨20, wTargets⟩).phase ≠ Phase.lost ∧
     (goToHome c3St wGrid ⟨20, wTargets⟩).phase ≠ Phase.lost) ∧
    (∀ st' : GameSt, ∀ sel' : List Pos, ∀ fresh' : Nat → Nat → BallColor,
        (handlePointerUp st' sel' fresh').phase = Phase.lost →
        st'.phase = Phase.lost ∨
          (MIN_MATCH ≤ sel'.length ∧ st'.phase = Phase.playing ∧
           allTargetsZero (targetsAfter st'.grid sel' st'.targets) = false ∧
           st'.moves - 1 + addedMovesOf st'.grid sel' ≤ 0)) :=
  winCheck_precedes_lossCheck c3St c3Sel wFresh wGrid ⟨20, wTargets⟩
    (by decide) (by decide) (b := ⟨BallColor.yellow, none⟩) (by decide)

/-- C6: the combo meter stays in [0, 100) across every pointer release, each
valid commit adds `min(25, 10 + (removalCount − 3) × 5)` to it, and when the
sum reaches 100 the breakout resets the meter to 0 and adds exactly 500
score and 2 moves on top of the commit's own deltas. -/
theorem comboMeter_bounds_and_breakout (st : GameSt) (sel : List Pos)
    (fresh : Nat → Nat → BallColor)
    (h0 : 0 ≤ st.comboMeter) (h1 : st.comboMeter < 100) :
    (0 ≤ (handlePointerUp st sel fresh).comboMeter ∧
     (handlePointerUp st sel fresh).comboMeter < 100) ∧
    (MIN_MATCH ≤ sel.length → st.phase = Phase.playing →
      ∀ b : Ball, getCell st.grid (sel.headD ⟨0, 0⟩).r (sel.headD ⟨0, 0⟩).c = some b →
      ((100 ≤ st.comboMeter + comboIncrement (removalCountOf st.grid sel) →
          (handlePointerUp st sel fresh).comboMeter = 0 ∧
          (handlePointerUp st sel fresh).score
            = st.score + scoreDeltaOf st.grid sel st.multiplierTurns + 500 ∧
          (handlePointerUp st sel fresh).moves
            = st.moves - 1 + addedMovesOf st.grid sel + 2) ∧
       (st.comboMeter + comboIncrement (removalCountOf st.grid sel) < 100 →
          (handlePointerUp st sel fresh).comboMeter
            = st.comboMeter + comboIncrement (removalCountOf st.grid sel) ∧
          (handlePointerUp st sel fresh).score
            = st.score + scoreDeltaOf st.grid sel st.multiplierTurns ∧
          (handlePointerUp st sel fresh).moves
            = st.moves - 1 + addedMovesOf st.grid sel))) := by
  constructor
  · unfold handlePointerUp
    by_cases hcond : MIN_MATCH ≤ sel.length ∧ st.phase = Phase.playing
    · rw [if_pos hcond]
      cases hcell : getCell st.grid (sel.headD ⟨0, 0⟩).r (sel.headD ⟨0, 0⟩).c with
      | none =>
          dsimp only
          by_cases hp : 0 < sel.length
          · rw [if_pos hp]
            dsimp only
            constructor
            · exact le_max_left 0 _
            · have : max 0 (st.comboMeter - 15) ≤ st.comboMeter := by omega
              omega
          · rw [if_neg hp]
            exact ⟨h0, h1⟩
      | some bb =>
          dsimp only
          have hrc : 3 ≤ removalCountOf st.grid sel :=
            le_trans hcond.1 (length_le_removalCount st.grid sel)
          obtain ⟨hi1, hi2⟩ := comboIncrement_bounds _ hrc
          rw [resolveValid_comboMeter]
          by_cases hbk : 100 ≤ st.comboMeter + comboIncrement (removalCountOf st.grid sel)
          · rw [if_pos hbk]
            omega
          · rw [if_neg hbk]
            omega
    · rw [if_neg hcond]
      exact ⟨h0, h1⟩
  · intro hlen hphase b hocc
    rw [handlePointerUp_eq_resolveValid st sel fresh hlen hphase hocc]
    constructor
    · intro hbk
      rw [resolveValid_comboMeter, resolveValid_score, resolveValid_moves,
        if_pos hbk, if_pos hbk, if_pos hbk]
      exact ⟨rfl, rfl, rfl⟩
    · intro hbk
      rw [resolveValid_comboMeter, resolveValid_score, resolveValid_moves,
        if_neg (not_le.mpr hbk), if_neg (not_le.mpr hbk), if_neg (not_le.mpr hbk)]
      refine ⟨rfl, by ring, by ring⟩

/-- A commit state with the combo meter at 85, so the 5-chain increment of
20 triggers a breakout. -/
def c6St : GameSt :=
  { level := 0, grid := wGrid, score := 0, moves := 20, targets := wTargets,
    phase := Phase.playing, multiplierTurns := 0, combo := 4, comboMeter := 85 }

/-- Witness for C6 at the breakout state. -/
theorem comboMeter_bounds_and_breakout_witness :
    (0 ≤ (handlePointerUp c6St wSel wFresh).comboMeter ∧
     (handlePointerUp c6St wSel wFresh).comboMeter < 100) ∧
    (MIN_MATCH ≤ wSel.length → c6St.phase = Phase.playing →
      ∀ b : Ball, getCell c6St.grid (wSel.headD ⟨0, 0⟩).r (wSel.headD ⟨0, 0⟩).c = some b →
      ((100 ≤ c6St.comboMeter + comboIncrement (removalCountOf c6St.grid wSel) →
          (handlePointerUp c6St wSel wFresh).comboMeter = 0 ∧
          (handlePointerUp c6St wSel wFresh).score
            = c6St.score + scoreDeltaOf c6St.grid wSel c6St.multiplierTurns + 500 ∧
          (handlePointerUp c6St wSel wFresh).moves
            = c6St.moves - 1 + addedMovesOf c6St.grid wSel + 2) ∧
       (c6St.comboMeter + comboIncrement (removalCountOf c6St.grid wSel) < 100 →
          (handlePointerUp c6St wSel wFresh).comboMeter
            = c6St.comboMeter + comboIncrement (removalCountOf c6St.grid wSel) ∧
          (handlePointerUp c6St wSel wFresh).score
            = c6St.score + scoreDeltaOf c6St.grid wSel c6St.multiplierTurns ∧
          (handlePointerUp c6St wSel wFresh).moves
            = c6St.moves - 1 + addedMovesOf c6St.grid wSel))) :=
  comboMeter_bounds_and_breakout c6St wSel wFresh (by decide) (by decide)

/-- A playing state with a combo streak and a half-filled meter, released on
a too-short two-cell chain. -/
def c7St : GameSt :=
  { level := 0, grid := wGrid, score := 0, moves := 20, targets := wTargets,
    phase := Phase.playing, multiplierTurns := 0, combo := 3, comboMeter := 50 }

/-- The too-short chain of the C7 failing input. -/
def c7Sel : List Pos := [⟨0, 1⟩, ⟨0, 2⟩]

/-- C7 evidence: releasing a non-empty too-short selection leaves the combo
streak and the combo meter unchanged — the penalty branch sits inside the
`length ≥ MIN_MATCH` check, so it cannot fire for a short chain. -/
theorem shortRelease_keeps_combo :
    (handlePointerUp c7St c7Sel wFresh).combo = 3 ∧
    (handlePointerUp c7St c7Sel wFresh).comboMeter = 50 := by
  constructor <;> rfl

/-! Grid-update lemmas for the reward-tile placement (C8). -/

theorem length_setCell (g : Grid) (r c : Nat) (v : Option Ball) :
    (setCell g r c v).length = g.length := by
  simp [setCell]

theorem rowLength_setCell (g : Grid) (r c : Nat) (v : Option Ball) (r' : Nat) :
    ((setCell g r c v).getD r' []).length = (g.getD r' []).length := by
  simp only [setCell, List.getD_eq_getElem?_getD, List.getElem?_set]
  by_cases h : r = r'
  · subst h
    by_cases hr : r < g.length
    · simp [hr]
    · simp [hr, List.getElem?_eq_none (show g.length ≤ r by omega)]
  · simp [h]

theorem getCell_setCell_self (g : Grid) (r c : Nat) (v : Option Ball)
    (hr : r < g.length) (hc : c < (g.getD r []).length) :
    getCell (setCell g r c v) r c = v := by
  have hc' : c < (g[r]?.getD []).length := by
    rw [← List.getD_eq_getElem?_getD]
    exact hc
  have hc2 : c < g[r].length := by
    rw [List.getElem?_eq_getElem hr] at hc'
    simpa using hc'
  simp [setCell, getCell, List.getD_eq_getElem?_getD, List.getElem?_set, hr, hc2]

/-- Clearing any set of cells does not change the grid's dimensions. -/
theorem clearFold_dims (l : List Pos) : ∀ g : Grid,
    (l.foldl (fun ng p => setCell ng p.r p.c none) g).length = g.length ∧
    ∀ r', ((l.foldl (fun ng p => setCell ng p.r p.c none) g).getD r' []).length
        = (g.getD r' []).length := by
  induction l with
  | nil => intro g; exact ⟨rfl, fun _ => rfl⟩
  | cons p t ih =>
      intro g
      rw [List.foldl_cons]
      obtain ⟨h1, h2⟩ := ih (setCell g p.r p.c none)
      refine ⟨?_, ?_⟩
      · rw [h1, length_setCell]
      · intro r'
        rw [h2 r', rowLength_setCell]

/-- C8: a commit whose removal set has size ≥ 10 places a `rainbow` tile at
the last coordinate of the originally committed chain instead of clearing
it, and a commit whose removal set contains a `rainbow` decrements every
active target by the removal count, floored at 0. -/
theorem superReward_and_rainbowTargets (g : Grid) (sel : List Pos)
    (t : BallColor → Option Int) (p : Pos)
    (hlast : sel.getLast? = some p)
    (hr : p.r < g.length) (hc : p.c < (g.getD p.r []).length) :
    (10 ≤ removalCountOf g sel →
      getCell (rewardedGridOf g sel) p.r p.c = some ⟨BallColor.rainbow, none⟩) ∧
    (usedRainbow g sel = true →
      ∀ c, targetsAfter g sel t c
        = (t c).map fun v => max 0 (v - (removalCountOf g sel : Int))) := by
  constructor
  · intro h10
    unfold rewardedGridOf
    rw [hlast]
    dsimp only
    rw [if_pos (by rw [removalCountOf] at h10; exact h10)]
    obtain ⟨h1, h2⟩ := clearFold_dims (finalSelectionOf g sel) g
    exact getCell_setCell_self _ p.r p.c _ (by rw [h1]; exact hr) (by rw [h2]; exact hc)
  · intro hrb c
    unfold targetsAfter
    rw [if_pos hrb]

/-- The all-yellow grid with a `rainbow` tile at (0,0). -/
def rbGrid : Grid :=
  [[some ⟨BallColor.rainbow, none⟩, yTile, yTile, yTile, yTile],
   [yTile, yTile, yTile, yTile, yTile],
   [yTile, yTile, yTile, yTile, yTile],
   [yTile, yTile, yTile, yTile, yTile],
   [yTile, yTile, yTile, yTile, yTile],
   [yTile, yTile, yTile, yTile, yTile],
   [yTile, yTile, yTile, yTile, yTile],
   [yTile, yTile, yTile, yTile, yTile]]

/-- A 10-cell chain through the rainbow tile, snaking over the top rows. -/
def rbSel : List Pos :=
  [⟨0, 0⟩, ⟨0, 1⟩, ⟨0, 2⟩, ⟨0, 3⟩, ⟨0, 4⟩, ⟨1, 4⟩, ⟨1, 3⟩, ⟨1, 2⟩, ⟨1, 1⟩, ⟨1, 0⟩]

/-- Witness for C8 at the 10-cell rainbow chain. -/
theorem superReward_and_rainbowTargets_witness :
    (10 ≤ removalCountOf rbGrid rbSel →
      getCell (rewardedGridOf rbGrid rbSel) (Pos.mk 1 0).r (Pos.mk 1 0).c
        = some ⟨BallColor.rainbow, none⟩) ∧
    (usedRainbow rbGrid rbSel = true →
      ∀ c, targetsAfter rbGrid rbSel wTargets c
        = (wTargets c).map fun v => max 0 (v - (removalCountOf rbGrid rbSel : Int))) :=
  superReward_and_rainbowTargets rbGrid rbSel wTargets ⟨1, 0⟩
    (by decide) (by decide) (by decide)

/-- C9: within a level, target values are monotonically nonincreasing across
commits and never become negative: every pointer release, in both the
featured and the simple variant, sets each target either to itself or to a
value `v'` with `0 ≤ v' ≤ v`. -/
theorem targets_monotone_nonneg (st : GameSt) (sst : SimpleSt) (sel : List Pos)
    (fresh : Nat → Nat → BallColor)
    (h : ∀ c v, st.targets c = some v → 0 ≤ v)
    (hs : ∀ c v, sst.targets c = some v → 0 ≤ v) :
    (∀ c, (handlePointerUp st sel fresh).targets c = st.targets c ∨
      ∃ v v', st.targets c = some v ∧ (handlePointerUp st sel fresh).targets c = some v' ∧
        0 ≤ v' ∧ v' ≤ v) ∧
    (∀ c, (simplePointerUp sst sel fresh).targets c = sst.targets c ∨
      ∃ v v', sst.targets c = some v ∧ (simplePointerUp sst sel fresh).targets c = some v' ∧
        0 ≤ v' ∧ v' ≤ v) := by
  have hlen0 : (0 : Int) ≤ (removalCountOf st.grid sel : Int) := Int.natCast_nonneg _
  constructor
  · intro c
    unfold handlePointerUp
    by_cases hcond : MIN_MATCH ≤ sel.length ∧ st.phase = Phase.playing
    · rw [if_pos hcond]
      cases hcell : getCell st.grid (sel.headD ⟨0, 0⟩).r (sel.headD ⟨0, 0⟩).c with
      | none =>
          dsimp only
          by_cases hp : 0 < sel.length
          · rw [if_pos hp]
            exact Or.inl rfl
          · rw [if_neg hp]
            exact Or.inl rfl
      | some bb =>
          dsimp only
          rw [resolveValid_targets]
          unfold targetsAfter
          by_cases hrb : usedRainbow st.grid sel = true
          · rw [if_pos hrb]
            cases hc : st.targets c with
            | none => exact Or.inl rfl
            | some v =>
                refine Or.inr ⟨v, _, rfl, rfl, ?_, ?_⟩
                · exact le_max_left 0 _
                · have hv0 := h c v hc
                  dsimp only
                  omega
          · rw [if_neg hrb]
            cases chainColorOf st.grid sel with
            | none => exact Or.inl rfl
            | some cc =>
                dsimp only
                by_cases hcc : c = cc
                · subst hcc
                  rw [if_pos rfl]
                  cases hc : st.targets c with
                  | none => exact Or.inl rfl
                  | some v =>
                      refine Or.inr ⟨v, _, rfl, rfl, ?_, ?_⟩
                      · exact le_max_left 0 _
                      · have hv := h c v hc
                        have hm : (0 : Int) ≤ (removalCountOf st.grid sel : Int)
                            * (if usedSpecial st.grid sel = true then 2 else 1) := by
                          apply mul_nonneg hlen0
                          split <;> norm_num
                        dsimp only
                        omega
                · rw [if_neg hcc]
                  exact Or.inl rfl
    · rw [if_neg hcond]
      exact Or.inl rfl
  · intro c
    unfold simplePointerUp
    by_cases hcond : MIN_MATCH ≤ sel.length ∧ sst.phase = Phase.playing
    · rw [if_pos hcond]
      cases hcell : getCell sst.grid (sel.headD ⟨0, 0⟩).r (sel.headD ⟨0, 0⟩).c with
      | none => exact Or.inl rfl
      | some fb =>
          dsimp only
          by_cases hcc : c = fb.color
          · rw [hcc, if_pos rfl]
            cases hc : sst.targets fb.color with
            | none => exact Or.inl rfl
            | some v =>
                refine Or.inr ⟨v, _, rfl, rfl, ?_, ?_⟩
                · exact le_max_left 0 _
                · have h1 := hs fb.color v hc
                  have h2 : (0 : Int) ≤ (sel.length : Int) := Int.natCast_nonneg _
                  dsimp only
                  omega
          · rw [if_neg hcc]
            exact Or.inl rfl
    · rw [if_neg hcond]
      exact Or.inl rfl

/-- Witness for C9 at the scenario states. -/
theorem targets_monotone_nonneg_witness :
    (∀ c, (handlePointerUp wSt wSel wFresh).targets c = wSt.targets c ∨
      ∃ v v', wSt.targets c = some v ∧ (handlePointerUp wSt wSel wFresh).targets c = some v' ∧
        0 ≤ v' ∧ v' ≤ v) ∧
    (∀ c, (simplePointerUp sSt wSel wFresh).targets c = sSt.targets c ∨
      ∃ v v', sSt.targets c = some v ∧ (simplePointerUp sSt wSel wFresh).targets c = some v' ∧
        0 ≤ v' ∧ v' ≤ v) :=
  targets_monotone_nonneg wSt sSt wSel wFresh
    (by intro c v hc; cases c <;> simp [wSt, wTargets] at hc <;> omega)
    (by intro c v hc; cases c <;> simp [sSt, wTargets] at hc <;> omega)

end PopMatch
